import Mathlib

/-!
# Verification of the ftp-go server core

A shallow embedding of the core of the `ftp-go` FTP server (files
`session.go` and the server half of `file_info.go`), together with proofs
and refutations of the specification's claims about it.

Conventions:
* Go strings are embedded as `GoStr := List Char` (byte strings; all the
  strings the claims touch are ASCII, so runes and bytes coincide).
* Go `map[string]Command` is embedded as an association list with unique
  keys; Go's interface-pointer equality on command values is embedded as
  decidable equality of the `Cmd` record (each command carries its name,
  so distinct commands are distinguishable).
* Host interaction (sockets, TLS handshakes, `crypto/rand`) is embedded by
  passing the outcome in as an explicit argument (a `Bool` for a handshake,
  a byte list for a digest, a `Nat` draw for `rand.Intn`).
* The host OS is Linux: `filepath.Separator = '/'` and `filepath.Clean`
  is the generic path-cleaning algorithm with separator `'/'`.
-/

abbrev GoStr := List Char

/-- `strings.Trim(s, cutset)`: remove leading and trailing characters that
occur in `cutset`. -/
def goTrim (s : GoStr) (cutset : List Char) : GoStr :=
  ((s.dropWhile (· ∈ cutset)).reverse.dropWhile (· ∈ cutset)).reverse

/-- `strings.SplitN(s, sep, 2)` for a one-character separator: split at the
first occurrence only. -/
def goSplitFirst (s : GoStr) (sep : Char) : List GoStr :=
  let before := s.takeWhile (· ≠ sep)
  match s.dropWhile (· ≠ sep) with
  | [] => [before]
  | _ :: after => [before, after]

/-- `strings.Split(s, sep)` for a one-character separator. -/
def goSplit (s : GoStr) (sep : Char) : List GoStr :=
  s.splitOn sep

/-- `strings.ToUpper` (the commands in play are ASCII, where Go's and
Lean's upper-casing agree). -/
def goToUpper (s : GoStr) : GoStr :=
  s.map Char.toUpper

/-- `strings.LastIndex(s, sep)` for a one-character separator: index of the
last occurrence, `-1` if absent. -/
def goLastIndex (s : GoStr) (c : Char) : Int :=
  match s with
  | [] => -1
  | a :: rest =>
    let r := goLastIndex rest c
    if r ≥ 0 then r + 1 else if a = c then 0 else -1

/-- Go's `unicode.IsSpace` restricted to ASCII (all the inputs in play). -/
def goIsSpace (c : Char) : Bool :=
  c = ' ' ∨ c = '\t' ∨ c = '\n' ∨ c = '\x0b' ∨ c = '\x0c' ∨ c = '\r'

/-- `strings.TrimSpace`. -/
def goTrimSpace (s : GoStr) : GoStr :=
  ((s.dropWhile goIsSpace).reverse.dropWhile goIsSpace).reverse

/-- Decimal digits of a natural number, used to embed `strconv.Itoa` and
`fmt.Sprintf("%d", _)` for the non-negative numbers in play. -/
def goItoaAux : Nat → Nat → GoStr
  | 0, _ => []
  | fuel + 1, n =>
    if n < 10 then [Char.ofNat (48 + n)]
    else goItoaAux fuel (n / 10) ++ [Char.ofNat (48 + n % 10)]

def goItoa (n : Nat) : GoStr :=
  goItoaAux (n + 1) n

/-- `strconv.Atoi`, with the error dropped the way the source drops it:
on any syntax error the value `0` is used (overflow is not modelled; the
claims never exercise it). -/
def goAtoi (s : GoStr) : Int :=
  let digits (l : GoStr) : Option Nat :=
    if l = [] then none
    else l.foldl (fun acc c =>
      match acc with
      | none => none
      | some v => if c.isDigit then some (v * 10 + (c.toNat - 48)) else none)
      (some 0)
  match s with
  | '+' :: rest => (digits rest).elim 0 (fun v => (v : Int))
  | '-' :: rest => (digits rest).elim 0 (fun v => -(v : Int))
  | _ => (digits s).elim 0 (fun v => (v : Int))

/-! ## `passiveListenIP` (session.go:96) -/

/-- The string-processing core of `Session.passiveListenIP`: the session's
advertised IP is the server's `PublicIP` when non-empty, otherwise the
control socket's local IP; then `"::1"` is returned as is, and otherwise
everything after the last `':'` (inclusive) is stripped when that colon
sits at a positive index. -/
def passiveListenIP (publicIP localIP : GoStr) : GoStr :=
  let listenIP := if publicIP.length > 0 then publicIP else localIP
  if listenIP = "::1".toList then listenIP
  else
    let lastIdx := goLastIndex listenIP ':'
    if lastIdx ≤ 0 then listenIP
    else listenIP.take lastIdx.toNat

/-! ## `PassivePort` (session.go:116) -/

/-- `Session.PassivePort`.  `rand.Intn(n)` is embedded by the draw `r`:
the possible results of `Intn n` for `n > 0` are exactly `r % n` as `r`
ranges over `Nat`; for `n ≤ 0` Go's `Intn` panics, embedded as `none`. -/
def passivePort (passivePorts : GoStr) (r : Nat) : Option Int :=
  if passivePorts.length > 0 then
    let portRange := goSplit passivePorts '-'
    if portRange.length ≠ 2 then some 0
    else
      let minPort := goAtoi (goTrimSpace (portRange.getD 0 []))
      let maxPort := goAtoi (goTrimSpace (portRange.getD 1 []))
      if maxPort - minPort ≤ 0 then none
      else some (minPort + (r : Int) % (maxPort - minPort))
  else some 0

/-! ## Session state and `upgradeToTLS` (session.go:203) -/

/-- The session fields the claims are about (`Session` in session.go).
The socket and the buffered reader/writer are embedded as tags recording
which connection they wrap (`0` = the original TCP socket, `1` = the TLS
wrapper), which is all the claims need of them. -/
structure SessState where
  conn : Nat
  controlReader : Nat
  controlWriter : Nat
  curDir : GoStr
  reqUser : GoStr
  user : GoStr
  renameFrom : GoStr
  preCommand : GoStr
  lastFilePos : Int
  closed : Bool
  tls : Bool
  dataConn : Option Nat
  deriving DecidableEq, Repr

/-- `Session.upgradeToTLS`.  The TLS handshake's outcome is passed in as
`handshakeOk`; on failure the function returns the error and leaves the
session unchanged, on success it swaps the connection and the buffered
reader/writer for the TLS wrapper and sets the `tls` flag.  No other
session field is touched. -/
def upgradeToTLS (sess : SessState) (handshakeOk : Bool) : Except GoStr SessState :=
  if handshakeOk then
    Except.ok { sess with conn := 1, controlReader := 1, controlWriter := 1, tls := true }
  else
    Except.error "handshake failure".toList

/-! ## `sendOutofbandData` (session.go:323) -/

/-- `Session.sendOutofbandData`: result is the updated session together
with the list of `(code, message)` replies written on the control
channel. The number of bytes the data socket's `Write` actually accepted
is discarded by the source (`_, _ = ...Write(data)`), so it does not
appear. -/
def sendOutofbandData (sess : SessState) (data : List Nat) :
    SessState × List (Nat × GoStr) :=
  let bytes := data.length
  let sess1 :=
    match sess.dataConn with
    | some _ => { sess with dataConn := none }
    | none => sess
  let message := "Closing data connection, sent ".toList ++ goItoa bytes ++ " bytes".toList
  (sess1, [(226, message)])

/-! ## Commands, Options and `NewServer` (file_info.go) -/

/-- A `Command` value of the registry.  In Go a command is an interface
value with methods `Execute`, `RequireParam`, `RequireAuth`, `IsExtend`;
here it is a record of the three flags plus the command's name, which
stands in for the identity of the handler (Go compares command values with
`==`, i.e. interface identity; distinct commands have distinct names). -/
structure Cmd where
  name : GoStr
  requireParam : Bool
  requireAuth : Bool
  isExtend : Bool
  deriving DecidableEq, Repr

/-- `map[string]Command`, as an association list with unique keys. -/
abbrev CmdMap := List (GoStr × Cmd)

/-- Go map lookup `m[k]` (first binding wins; `none` embeds both a missing
key and a lookup in a nil map). -/
def mapGet : CmdMap → GoStr → Option Cmd
  | [], _ => none
  | (k, v) :: rest, key => if k = key then some v else mapGet rest key

/-- `defaultCommands` lives in cmd.go, which is not among the sources
under verification.  Modelled from the spec: §4.2 lists the verb set but
not each verb's RequireParam/RequireAuth flags, so the default registry is
left empty here; every theorem below that involves the registry supplies
`Options.Commands` explicitly and none depends on this value. -/
def defaultCommands : CmdMap := []

def defaultWelcomeMessage : GoStr := "Welcome to the Go FTP Server".toList

/-- The `Options` struct (file_info.go:56).  Interface-typed fields
(`Driver`, `Auth`, `Perm`, `Logger`) are embedded as `Option Unit`: all
the claims need of them is whether they are nil.  `Timeout` is embedded by
its value in seconds. -/
structure OptionsR where
  driver : Option Unit
  auth : Option Unit
  perm : Option Unit
  logger : Option Unit
  commands : Option CmdMap
  name : GoStr
  hostname : GoStr
  publicIP : GoStr
  passivePorts : GoStr
  certFile : GoStr
  keyFile : GoStr
  welcomeMessage : GoStr
  port : Int
  rateLimit : Int
  timeoutSeconds : Int
  tls : Bool
  explicitFTPS : Bool
  forceTLS : Bool
  deriving DecidableEq, Repr

/-- The zero value of `Options` (also standing in for a nil `*Options`,
which `optsWithDefaults` replaces by `&Options{}`). -/
def emptyOptions : OptionsR :=
  { driver := none, auth := none, perm := none, logger := none,
    commands := none, name := [], hostname := [], publicIP := [],
    passivePorts := [], certFile := [], keyFile := [], welcomeMessage := [],
    port := 0, rateLimit := 0, timeoutSeconds := 0,
    tls := false, explicitFTPS := false, forceTLS := false }

/-- `optsWithDefaults` (file_info.go:147), field by field.  `newOpts`
starts as the zero struct and the source assigns every field except
`CommandsMu` (a lock, not modelled) and — notably — `ForceTLS`, which is
left at its zero value `false`. -/
def optsWithDefaults (opts : OptionsR) : OptionsR :=
  { hostname := if opts.hostname = [] then "::".toList else opts.hostname,
    port := if opts.port = 0 then 2121 else opts.port,
    driver := opts.driver,
    name := if opts.name = [] then "Go FTP Server".toList else opts.name,
    welcomeMessage :=
      if opts.welcomeMessage = [] then defaultWelcomeMessage
      else opts.welcomeMessage,
    auth := opts.auth,
    logger := some (opts.logger.getD ()),
    commands := some (opts.commands.getD defaultCommands),
    timeoutSeconds :=
      if opts.timeoutSeconds ≤ 0 then 60 else opts.timeoutSeconds,
    perm := opts.perm,
    tls := opts.tls,
    keyFile := opts.keyFile,
    certFile := opts.certFile,
    explicitFTPS := opts.explicitFTPS,
    publicIP := opts.publicIP,
    passivePorts := opts.passivePorts,
    rateLimit := opts.rateLimit,
    forceTLS := false }

/-- `strconv.Itoa` over `Int` (for `net.JoinHostPort`'s port). -/
def goItoaInt (n : Int) : GoStr :=
  if n < 0 then '-' :: goItoa n.natAbs else goItoa n.toNat

/-- `net.JoinHostPort`. -/
def joinHostPort (host : GoStr) (port : Int) : GoStr :=
  if ':' ∈ host then '[' :: host ++ "]:".toList ++ goItoaInt port
  else host ++ ':' :: goItoaInt port

/-- The `Server` struct fields the claims are about. -/
structure Server where
  opts : OptionsR
  listenTo : GoStr
  feats : GoStr
  deriving DecidableEq, Repr

/-- `NewServer` (file_info.go:225).  The `for k, v := range s.Commands`
loop runs in Go's unspecified map order; it is embedded in the
association-list order (no claim depends on the order).  The rate limiter
is not modelled. -/
def newServer (opts0 : OptionsR) : Except GoStr Server :=
  let opts := optsWithDefaults opts0
  if opts.perm = none then Except.error "No perm implementation".toList
  else
    let cmds := opts.commands.getD []
    let featCmds0 := " UTF8\n".toList
    let featCmds1 := cmds.foldl
      (fun acc kv => if kv.2.isExtend then acc ++ ' ' :: kv.1 ++ ['\n'] else acc)
      featCmds0
    let featCmds2 :=
      if opts.tls then featCmds1 ++ " AUTH TLS\n PBSZ\n PROT\n".toList
      else featCmds1
    Except.ok
      { opts := opts,
        listenTo := joinHostPort opts.hostname opts.port,
        feats := "Extensions supported:\n".toList ++ featCmds2 }

/-- `Server.newSession` (file_info.go:263): the fresh session state (the
`connTag` is the accepted socket). -/
def newSession (connTag : Nat) : SessState :=
  { conn := connTag, controlReader := connTag, controlWriter := connTag,
    curDir := "/".toList, reqUser := [], user := [], renameFrom := [],
    preCommand := [], lastFilePos := -1, closed := false, tls := false,
    dataConn := none }

/-! ## `parseLine` and `receiveLine` (session.go:221) -/

/-- `Session.parseLine`. -/
def parseLine (line : GoStr) : GoStr × GoStr :=
  let params := goSplitFirst (goTrim line ['\r', '\n']) ' '
  match params with
  | [] => ([], [])
  | [p] => (p, [])
  | p :: q :: _ => (p, q)

/-- What one `receiveLine` call did: either a reply was written (the
command's handler was not invoked) or the handler was invoked with the
given token and parameter. -/
inductive LineResult where
  | replied (code : Nat) (message : GoStr)
  | executed (cmd param : GoStr)
  deriving DecidableEq, Repr

/-- `Session.receiveLine`, minus logging and the panic guard (which do not
change the dispatch).  The handler itself is opaque: the result records
that it was invoked and with what, and `preCommand` is updated exactly in
that case. -/
def receiveLine (srv : Server) (sess : SessState) (line : GoStr) :
    LineResult × SessState :=
  let cp := parseLine line
  let param := cp.2
  let cmdGiven := goToUpper cp.1
  let cmds := srv.opts.commands.getD []
  match mapGet cmds cmdGiven with
  | none => (.replied 500 "Command not found".toList, sess)
  | some cmdObj =>
    if cmdObj.requireParam = true ∧ param = [] then
      (.replied 553 "action aborted, required param missing".toList, sess)
    else if srv.opts.forceTLS = true ∧ sess.tls = false ∧
        ¬(mapGet cmds "AUTH".toList = some cmdObj ∧ param = "TLS".toList) then
      (.replied 534 "Request denied for policy reasons. AUTH TLS required.".toList, sess)
    else if cmdObj.requireAuth = true ∧ sess.user = [] then
      (.replied 530 "not logged in".toList, sess)
    else
      (.executed cmdGiven param, { sess with preCommand := cmdGiven })

/-! ## Reply formatting (session.go:273) -/

/-- The control-channel line written by `writeMessage`:
`fmt.Sprintf("%d %s\r\n", code, message)`. -/
def writeMessageLine (code : Nat) (message : GoStr) : GoStr :=
  goItoa code ++ ' ' :: message ++ "\r\n".toList

/-- The control-channel line written by `writeMessageMultiline`:
`fmt.Sprintf("%d-%s\r\n%d END\r\n", code, message, code)`. -/
def writeMessageMultilineLine (code : Nat) (message : GoStr) : GoStr :=
  goItoa code ++ '-' :: message ++ "\r\n".toList
    ++ goItoa code ++ " END\r\n".toList

/-- Number of (non-overlapping, leftmost) occurrences of `"\r\n"`. -/
def countCRLF : GoStr → Nat
  | [] => 0
  | [_] => 0
  | c :: d :: rest =>
    if c = '\r' ∧ d = '\n' then countCRLF rest + 1
    else countCRLF (d :: rest)

/-- `true` iff every `'\n'` in the string is immediately preceded by
`'\r'` — i.e. every line ends in `"\r\n"`, never in a bare `"\n"`. -/
def allLinesCRLF : GoStr → Bool
  | [] => true
  | [c] => if c = '\n' then false else true
  | c :: d :: rest =>
    if c = '\r' ∧ d = '\n' then allLinesCRLF rest
    else if c = '\n' then false
    else allLinesCRLF (d :: rest)

/-! ## `newSessionID` and `Serve` (session.go:136, file_info.go:330) -/

/-- One lowercase hex digit. -/
def hexDigit (n : Nat) : Char :=
  if n < 10 then Char.ofNat (48 + n) else Char.ofNat (87 + n)

/-- `hex.EncodeToString` over a byte list. -/
def hexEncodeBytes (bs : List Nat) : GoStr :=
  (bs.map (fun b => [hexDigit (b / 16 % 16), hexDigit (b % 16)])).flatten

/-- `newSessionID` (session.go:136): the SHA-256 digest of 50 bytes from
`crypto/rand` is passed in as `digest` (32 bytes), and `randOk` records
whether reading the random source succeeded. -/
def newSessionID (randOk : Bool) (digest : List Nat) : GoStr :=
  if randOk then (hexEncodeBytes digest).take 20
  else "????????????????????".toList

/-- `ErrServerClosed` (file_info.go:51). -/
def ErrServerClosed : GoStr := "ftp: Server closed".toList

/-- The text of the `net.ErrClosed` error that `Accept` returns once
`Shutdown` has closed the listener. -/
def errUseOfClosedConn : GoStr := "use of closed network connection".toList

/-- The accept loop of `Server.Serve` (file_info.go:330): each element of
`accepts` is one `listener.Accept()` outcome (a connection tag, or the
error that ends the loop).  Returns the ids of the sessions spawned, in
order, and the error `Serve` returns (`none` while the list is not yet
exhausted — the real loop would still be blocked in `Accept`). -/
def serveLoop (sessionID : GoStr) : List (Except GoStr Nat) → List GoStr × Option GoStr
  | [] => ([], none)
  | Except.error e :: _ => ([], some e)
  | Except.ok _ :: rest =>
    let r := serveLoop sessionID rest
    (sessionID :: r.1, r.2)

/-- `Server.Serve`: `sessionID := newSessionID()` is evaluated once,
before the loop, and every accepted connection's session is built with
that one id. -/
def serve (randOk : Bool) (digest : List Nat)
    (accepts : List (Except GoStr Nat)) : List GoStr × Option GoStr :=
  let sessionID := newSessionID randOk digest
  serveLoop sessionID accepts

/-! ## `buildPath` (session.go:308) and `filepath.Clean`

`filepath.Clean` on Linux is the generic lexical cleaning algorithm of
Go's path/filepath package with separator `'/'` (`FromSlash` is the
identity).  The algorithm is transliterated below: `cleanLoop` is the main
`for r < n` loop over the remaining input, carrying the output buffer
`out` and the `dotdot` barrier; `btkLoop` is the inner backtracking loop
`for out.w > dotdot && !os.IsPathSeparator(out.index(out.w))`. -/

/-- The inner backtracking loop of `Clean`'s `..` case: starting from
index `w`, step left while the index is above `dotdot` and the buffer
character at it is not `'/'`; returns the final index. -/
def btkLoop (buf : GoStr) (dotdot w : Nat) : Nat :=
  if h : dotdot < w ∧ buf.getD w ' ' ≠ '/' then btkLoop buf dotdot (w - 1)
  else w
termination_by w
decreasing_by omega

/-- `out.w--` followed by the backtracking loop: the buffer is truncated
to the final index. -/
def backtrack (out : GoStr) (dotdot : Nat) : GoStr :=
  out.take (btkLoop out dotdot (out.length - 1))

/-- The main loop of `filepath.Clean`.  The four cases mirror the Go
switch: path separator; a `.` ending a segment; a `..` ending a segment
(backtrack above the barrier, emit `..` when not rooted, else drop);
otherwise copy the whole next segment, preceded by a separator unless the
buffer is at its initial position. -/
def cleanLoop : GoStr → Bool → GoStr → Nat → GoStr
  | [], _, out, _ => out
  | c :: rest, rooted, out, dotdot =>
    if c = '/' then
      cleanLoop rest rooted out dotdot
    else if c = '.' ∧ (rest = [] ∨ rest.headD ' ' = '/') then
      cleanLoop rest rooted out dotdot
    else if c = '.' ∧ rest.headD ' ' = '.' ∧
        (rest.tail = [] ∨ rest.tail.headD ' ' = '/') then
      (if out.length > dotdot then
        cleanLoop rest.tail rooted (backtrack out dotdot) dotdot
      else if rooted = false then
        cleanLoop rest.tail rooted
          ((if out.length > 0 then out ++ ['/'] else out) ++ ['.', '.'])
          ((if out.length > 0 then out ++ ['/'] else out) ++ ['.', '.']).length
      else
        cleanLoop rest.tail rooted out dotdot)
    else
      cleanLoop (rest.dropWhile (fun x => x ≠ '/')) rooted
        ((if (rooted = true ∧ out.length ≠ 1) ∨ (rooted = false ∧ out.length ≠ 0)
            then out ++ ['/'] else out)
          ++ (c :: rest).takeWhile (fun x => x ≠ '/'))
        dotdot
termination_by p _ _ _ => p.length
decreasing_by
  · simp only [List.length_cons]; omega
  · simp only [List.length_cons]; omega
  · simp only [List.length_cons]; have := rest.length_tail; omega
  · simp only [List.length_cons]; have := rest.length_tail; omega
  · simp only [List.length_cons]; have := rest.length_tail; omega
  · simp only [List.length_cons]
    have : (rest.dropWhile (fun x => x ≠ '/')).length ≤ rest.length :=
      (List.dropWhile_sublist (l := rest) _).length_le
    omega

/-- `filepath.Clean` (Linux). -/
def goFilepathClean (path : GoStr) : GoStr :=
  if path = [] then ['.']
  else
    let rooted : Bool := path.headD ' ' == '/'
    let res := cleanLoop path rooted (if rooted then ['/'] else [])
      (if rooted then 1 else 0)
    if res = [] then ['.'] else res

/-- `strings.Replace(s, pat, rep, -1)` for non-empty `pat`: leftmost
non-overlapping occurrences of `pat` are replaced by `rep`.  (The source
only ever calls it with `pat = "//"` and `pat = "/"`.) -/
def replaceAll (s pat rep : GoStr) : GoStr :=
  if h : pat ≠ [] ∧ pat.isPrefixOf s then
    rep ++ replaceAll (s.drop pat.length) pat rep
  else
    match s with
    | [] => []
    | c :: rest => c :: replaceAll rest pat rep
termination_by s.length
decreasing_by
  · have h1 : pat.length ≤ s.length := (List.isPrefixOf_iff_prefix.mp h.2).length_le
    have h2 : 0 < pat.length := List.length_pos.mpr h.1
    simp only [List.length_drop]
    omega
  · simp_all [List.length_cons]

/-- `Session.buildPath` (session.go:308).  On Linux
`string(filepath.Separator) = "/"`, so the second `strings.Replace` maps
`"/"` to `"/"`. -/
def buildPath (curDir filename : GoStr) : GoStr :=
  let fullPath :=
    if filename.length > 0 ∧ filename.take 1 = "/".toList then
      goFilepathClean filename
    else if filename.length > 0 ∧ filename ≠ "-a".toList then
      goFilepathClean (curDir ++ "/".toList ++ filename)
    else goFilepathClean curDir
  let fp1 := replaceAll fullPath "//".toList "/".toList
  replaceAll fp1 "/".toList "/".toList

/-- `"/"` joined between path segments: the shape of a cleaned rooted
path's tail. -/
def joinSegs : List GoStr → GoStr
  | [] => []
  | [s] => s
  | s :: rest => s ++ '/' :: joinSegs rest

/-- Well-formed segments of a cleaned rooted path: non-empty, free of
`'/'`, and neither `"."` nor `".."`. -/
def GoodSegs (segs : List GoStr) : Prop :=
  ∀ s ∈ segs, s ≠ [] ∧ ('/' ∉ s) ∧ s ≠ ['.'] ∧ s ≠ ['.', '.']

/-- The claim's conclusion: splitting on `'/'` yields no `"."` or `".."`
segment. -/
def noDotSegs (l : GoStr) : Prop :=
  ∀ s ∈ l.splitOn '/', s ≠ ['.'] ∧ s ≠ ['.', '.']

instance noDotSegsDecidable (l : GoStr) : Decidable (noDotSegs l) := by
  unfold noDotSegs; infer_instance

/-- `k` copies of `"/.."`, the claim's escape-attempt input. -/
def dotdotChain (k : Nat) : GoStr :=
  (List.replicate k "/..".toList).flatten

/-! ## Concrete fixtures used by the closed theorems below -/

/-- A session that has completed `USER`/`PASS` on the plaintext channel,
about to upgrade. -/
def loggedInPlaintextSess : SessState :=
  { conn := 0, controlReader := 0, controlWriter := 0, curDir := "/".toList,
    reqUser := "bob".toList, user := "admin".toList, renameFrom := [],
    preCommand := "PASS".toList, lastFilePos := -1, closed := false,
    tls := false, dataConn := none }

/-- The `USER` command entry (requires a parameter, no authentication). -/
def userCmd : Cmd :=
  { name := "USER".toList, requireParam := true, requireAuth := false,
    isExtend := false }

/-- Options asking for ForceTLS, with a registry containing `USER`. -/
def forceTLSOptions : OptionsR :=
  { emptyOptions with
    perm := some ()
    forceTLS := true
    commands := some [("USER".toList, userCmd)] }

/-- Options for a plain server with an empty extra registry. -/
def plainOptions : OptionsR :=
  { emptyOptions with perm := some (), commands := some [] }

/-- The server built from `plainOptions` (extracted from the `Except`). -/
def plainServer : Server :=
  ((newServer plainOptions).toOption).getD
    { opts := emptyOptions, listenTo := [], feats := [] }

/-! ## Theorems: C8 -/

/-- C8 counterexample: the claim says every IPv6 literal is returned
unchanged, but only the exact string `"::1"` is special-cased; the IPv6
literal `"2001:db8::1"` (as the server's `PublicIP`) is truncated at its
last colon to `"2001:db8:"`. -/
theorem passiveListenIP_ipv6_counterexample :
    passiveListenIP "2001:db8::1".toList [] = "2001:db8:".toList ∧
      "2001:db8:".toList ≠ "2001:db8::1".toList := by
  constructor
  · rfl
  · decide

theorem goLastIndex_not_mem (s : GoStr) (c : Char) (h : c ∉ s) :
    goLastIndex s c = -1 := by
  induction s with
  | nil => rfl
  | cons a rest ih =>
    have ha : a ≠ c := fun hac => h (hac ▸ List.mem_cons_self a rest)
    have hr : c ∉ rest := fun hc => h (List.mem_cons_of_mem a hc)
    simp [goLastIndex, ih hr, ha]

theorem goLastIndex_append_colon (host port : GoStr) (c : Char) (hp : c ∉ port) :
    goLastIndex (host ++ c :: port) c = (host.length : Int) := by
  induction host with
  | nil => simp [goLastIndex, goLastIndex_not_mem port c hp]
  | cons a rest ih =>
    have : (0 : Int) ≤ (rest.length : Int) := Int.ofNat_nonneg _
    simp [goLastIndex, ih, this]

/-- C8 amended: among all address strings, `passiveListenIP` preserves
exactly these: the literal `"::1"`, every string without `':'`, and every
string whose last colon sits at index 0 (such as `":8080"`).  Every other
string — any whose last colon sits at a positive index, which is exactly
the strings of the form `a ++ ":" ++ b` with `a` non-empty and `b`
colon-free, `a` itself possibly containing colons (so in particular every
IPv6 literal other than `"::1"`) — is truncated just before that last
colon, whether the address comes from `PublicIP` or from the local socket
address; for `host:port` with a colon-free host this strips the port
suffix. -/
theorem passiveListenIP_amended (s a b : GoStr)
    (hs : ':' ∉ s) (ha : a ≠ []) (hb : ':' ∉ b)
    (hne : a ++ ':' :: b ≠ "::1".toList) :
    passiveListenIP "::1".toList [] = "::1".toList ∧
      passiveListenIP s [] = s ∧
      passiveListenIP (':' :: b) [] = ':' :: b ∧
      passiveListenIP (a ++ ':' :: b) [] = a ∧
      passiveListenIP [] (a ++ ':' :: b) = a := by
  have hlast : goLastIndex (a ++ ':' :: b) ':' = (a.length : Int) :=
    goLastIndex_append_colon a b ':' hb
  have hapos : 0 < a.length := List.length_pos.mpr ha
  have hpos : ¬ ((a.length : Int) ≤ 0) := by
    simp only [not_le]
    exact_mod_cast hapos
  have htake : (a ++ ':' :: b).take a.length = a := List.take_left a _
  refine ⟨rfl, ?_, ?_, ?_, ?_⟩
  · -- a colon-free string is returned unchanged
    by_cases hnil : s = []
    · subst hnil; rfl
    · have hlen : s.length > 0 := List.length_pos.mpr hnil
      have hne1 : s ≠ "::1".toList := by
        intro he; exact hs (he ▸ (by decide : ':' ∈ "::1".toList))
      have hidx : goLastIndex s ':' = -1 := goLastIndex_not_mem s ':' hs
      simp only [passiveListenIP, if_pos hlen, hne1, if_neg hne1, hidx]
      norm_num
  · -- last colon at index 0: returned unchanged
    have hne1 : (':' :: b : GoStr) ≠ "::1".toList := by
      intro he
      rw [show ("::1".toList : GoStr) = ':' :: ':' :: '1' :: [] from rfl] at he
      injection he with _ hb'
      exact hb (by rw [hb']; simp)
    have hlen : (':' :: b : GoStr).length > 0 := by simp
    have hl0 : goLastIndex (':' :: b) ':' = 0 := by
      have hbneg := goLastIndex_not_mem b ':' hb
      simp [goLastIndex, hbneg]
    simp only [passiveListenIP, if_pos hlen, if_neg hne1, hl0]
    norm_num
  · -- last colon at a positive index, via PublicIP: truncated before it
    have hlen : (a ++ ':' :: b).length > 0 := by simp
    simp only [passiveListenIP, if_pos hlen, if_neg hne, hlast]
    rw [if_neg hpos]
    simp only [Int.toNat_natCast]
    exact htake
  · -- the same via the local socket address (PublicIP empty)
    have hzero : ¬ (([] : GoStr).length > 0) := by simp
    simp only [passiveListenIP, if_neg hzero, if_neg hne, hlast]
    rw [if_neg hpos]
    simp only [Int.toNat_natCast]
    exact htake

theorem passiveListenIP_amended_witness :
    (':' ∉ ("10.0.0.5".toList : GoStr)) ∧
      ("fe80:".toList : GoStr) ≠ [] ∧
      (':' ∉ ("1".toList : GoStr)) ∧
      ("fe80:".toList ++ ':' :: "1".toList : GoStr) ≠ "::1".toList ∧
      (passiveListenIP "::1".toList [] = "::1".toList ∧
        passiveListenIP "10.0.0.5".toList [] = "10.0.0.5".toList ∧
        passiveListenIP (':' :: "1".toList) [] = ':' :: "1".toList ∧
        passiveListenIP ("fe80:".toList ++ ':' :: "1".toList) [] = "fe80:".toList ∧
        passiveListenIP [] ("fe80:".toList ++ ':' :: "1".toList) = "fe80:".toList) :=
  ⟨by decide, by decide, by decide, by decide,
    passiveListenIP_amended "10.0.0.5".toList "fe80:".toList "1".toList
      (by decide) (by decide) (by decide) (by decide)⟩

/-! ## Theorems: C2 -/

/-- C2 counterexample: after a successful TLS upgrade of a session that
authenticated before `AUTH TLS`, the authenticated user is still `"admin"`
(and the requested user still `"bob"`) — not empty as the claim states. -/
theorem upgradeToTLS_credentials_counterexample :
    (upgradeToTLS loggedInPlaintextSess true).map SessState.user
        = Except.ok "admin".toList ∧
      (upgradeToTLS loggedInPlaintextSess true).map SessState.reqUser
        = Except.ok "bob".toList ∧
      ("admin".toList : GoStr) ≠ [] := by
  refine ⟨rfl, rfl, by decide⟩

/-- C2 amended: a successful `upgradeToTLS` sets the `tls` flag and swaps
the connection and buffered reader/writer for the TLS wrapper, but leaves
the authenticated user and the requested user exactly as they were —
`USER`/`PASS` issued before `AUTH TLS` are not discarded by the upgrade. -/
theorem upgradeToTLS_preserves_credentials (s : SessState) :
    ∃ s', upgradeToTLS s true = Except.ok s' ∧
      s'.tls = true ∧ s'.conn = 1 ∧ s'.controlReader = 1 ∧ s'.controlWriter = 1 ∧
      s'.user = s.user ∧ s'.reqUser = s.reqUser ∧ s'.curDir = s.curDir ∧
      s'.closed = s.closed ∧ s'.dataConn = s.dataConn :=
  ⟨_, rfl, rfl, rfl, rfl, rfl, rfl, rfl, rfl, rfl, rfl⟩

/-! ## Theorems: C10 -/

/-- C10 confirmed: for every session state (whether or not a data
connection is open) and every byte slice `d`, `sendOutofbandData` leaves
`dataConn = nil` and writes exactly one reply, `226 Closing data
connection, sent N bytes` with `N = len(d)` — the byte count the data
socket actually accepted is never consulted, and no `425` is produced when
`dataConn` was already nil. -/
theorem sendOutofbandData_closes_and_reports (sess : SessState) (data : List Nat) :
    (sendOutofbandData sess data).1.dataConn = none ∧
      (sendOutofbandData sess data).2 =
        [(226, "Closing data connection, sent ".toList ++ goItoa data.length
            ++ " bytes".toList)] := by
  cases h : sess.dataConn <;> simp [sendOutofbandData, h]

/-! ## Theorems: C6 -/

/-- C6 counterexample: with the configured range `"100-100"` (min = max,
so min ≤ max), `PassivePort` evaluates `rand.Intn(0)`, which panics
(embedded as `none`) — the claim says the call never panics for
min ≤ max. -/
theorem passivePort_equal_range_counterexample :
    passivePort "100-100".toList 0 = none ∧ (100 : Int) ≤ 100 := by
  exact ⟨by decide, by norm_num⟩

/-- C6 amended: with no range configured the result is `0`; for a
configured range `min-max` the draw is `min + Intn(max-min)`, so for
min < max every result lies in the half-open range `[min, max)` — `max`
itself is never returned — and for max ≤ min (in particular min = max)
`rand.Intn` is called with a non-positive argument and panics. -/
theorem passivePort_amended (s a b : GoStr) (mi ma : Int) (r : Nat)
    (hsplit : goSplit s '-' = [a, b]) (hlen : s.length > 0)
    (ha : goAtoi (goTrimSpace a) = mi) (hb : goAtoi (goTrimSpace b) = ma) :
    (∀ r2 : Nat, passivePort [] r2 = some 0) ∧
      (mi < ma →
        passivePort s r = some (mi + (r : Int) % (ma - mi)) ∧
          mi ≤ mi + (r : Int) % (ma - mi) ∧ mi + (r : Int) % (ma - mi) < ma) ∧
      (ma ≤ mi → passivePort s r = none) := by
  refine ⟨fun r2 => rfl, ?_, ?_⟩
  · intro hlt
    have hne : ¬(ma - mi ≤ 0) := by omega
    have hmod0 : 0 ≤ (r : Int) % (ma - mi) :=
      Int.emod_nonneg _ (by omega)
    have hmod1 : (r : Int) % (ma - mi) < ma - mi :=
      Int.emod_lt_of_pos _ (by omega)
    refine ⟨?_, by omega, by omega⟩
    simp only [passivePort, if_pos hlen, hsplit]
    norm_num [ha, hb, hne]
  · intro hle
    have hyes : ma - mi ≤ 0 := by omega
    simp only [passivePort, if_pos hlen, hsplit]
    norm_num [ha, hb, hyes]

theorem passivePort_amended_witness :
    (goSplit "100-200".toList '-' = ["100".toList, "200".toList]) ∧
      ("100-200".toList : GoStr).length > 0 ∧
      goAtoi (goTrimSpace "100".toList) = 100 ∧
      goAtoi (goTrimSpace "200".toList) = 200 ∧
      ((∀ r2 : Nat, passivePort [] r2 = some 0) ∧
        ((100 : Int) < 200 →
          passivePort "100-200".toList 7 = some (100 + (7 : Int) % (200 - 100)) ∧
            100 ≤ 100 + (7 : Int) % (200 - 100) ∧
            100 + (7 : Int) % (200 - 100) < 200) ∧
        ((200 : Int) ≤ 100 → passivePort "100-200".toList 7 = none)) :=
  ⟨by decide, by decide, by decide, by decide,
    passivePort_amended "100-200".toList "100".toList "200".toList 100 200 7
      (by decide) (by decide) (by decide) (by decide)⟩

/-! ## Theorems: C4 -/

/-- C4: the accept loop returns the `Accept` error *unchanged*; in
particular, once `Shutdown` closes the listener, `Accept` fails with
`net.ErrClosed` ("use of closed network connection") and `Serve` returns
that error, which is not `ErrServerClosed`.  (The repository's own
integration helper asserts `ListenAndServe` returns `ErrServerClosed`
after `Shutdown`, and the doc comment on `ErrServerClosed` promises the
same, so the source contradicts its own test.) -/
theorem serve_returns_raw_accept_error :
    serve true [] [Except.error errUseOfClosedConn]
        = ([], some errUseOfClosedConn) ∧
      errUseOfClosedConn ≠ ErrServerClosed ∧
      ∀ (sid e : GoStr) (rest : List (Except GoStr Nat)),
        serveLoop sid (Except.error e :: rest) = ([], some e) :=
  ⟨rfl, by decide, fun _ _ _ => rfl⟩

/-! ## Theorems: C9 -/

theorem serveLoop_ids (sid : GoStr) (l : List (Except GoStr Nat)) :
    ∀ i ∈ (serveLoop sid l).1, i = sid := by
  induction l with
  | nil => intro i hi; simp [serveLoop] at hi
  | cons hd rest ih =>
    intro i hi
    cases hd with
    | error e => simp [serveLoop] at hi
    | ok c =>
      simp only [serveLoop, List.mem_cons] at hi
      rcases hi with h | h
      · exact h
      · exact ih i h

theorem hexEncodeBytes_length (bs : List Nat) :
    (hexEncodeBytes bs).length = 2 * bs.length := by
  induction bs with
  | nil => rfl
  | cons b rest ih =>
    simp only [hexEncodeBytes, List.map_cons, List.flatten_cons] at *
    simp [ih]
    omega

/-- C9 confirmed: `Serve` draws `newSessionID()` once, before the accept
loop, so every session it spawns carries the identical id — the 20-char
prefix of the hex encoding of one SHA-256 digest (or the constant
`"????????????????????"` when the random source failed). -/
theorem serve_single_session_id (randOk : Bool) (digest : List Nat)
    (accepts : List (Except GoStr Nat)) (hd : digest.length = 32) :
    (∀ i ∈ (serve randOk digest accepts).1, i = newSessionID randOk digest) ∧
      (newSessionID randOk digest).length = 20 := by
  constructor
  · exact serveLoop_ids (newSessionID randOk digest) accepts
  · cases randOk with
    | true =>
      simp [newSessionID, List.length_take, hexEncodeBytes_length, hd]
    | false =>
      simp [newSessionID]

theorem serve_single_session_id_witness :
    (List.replicate 32 0).length = 32 ∧
      ((∀ i ∈ (serve true (List.replicate 32 0)
            [Except.ok 0, Except.ok 1]).1,
          i = newSessionID true (List.replicate 32 0)) ∧
        (newSessionID true (List.replicate 32 0)).length = 20) :=
  ⟨by decide,
    serve_single_session_id true (List.replicate 32 0)
      [Except.ok 0, Except.ok 1] (by decide)⟩

/-! ## Theorems: C1 -/

/-- C1: `optsWithDefaults` never copies `ForceTLS` into the fresh options
struct, so every server built by `NewServer` has `ForceTLS = false`; a
plaintext session of a server constructed with `ForceTLS: true` that
receives `"USER alice"` (not `AUTH TLS`) gets its `USER` handler invoked
instead of the `534` reply the claim requires. -/
theorem forceTLS_dropped_by_newServer :
    forceTLSOptions.forceTLS = true ∧
      (newServer forceTLSOptions).map (fun srv => srv.opts.forceTLS)
          = Except.ok false ∧
      (newServer forceTLSOptions).map
          (fun srv => (receiveLine srv (newSession 0) "USER alice\r\n".toList).1)
        = Except.ok (LineResult.executed "USER".toList "alice".toList) :=
  ⟨rfl, rfl, rfl⟩

/-! ## Theorems: C5 -/

/-- C5 confirmed: for a server whose `ForceTLS` is off — which, by
`forceTLS_dropped_by_newServer`, is every server `NewServer` constructs —
`receiveLine` applies its checks in the claimed order and stops at the
first that fires: unknown token → `500 Command not found`; registered
command requiring a parameter with an empty parameter → `553 action
aborted, required param missing` (this check precedes the authentication
check); command requiring authentication with no user set → `530 not
logged in`; otherwise the handler is executed and the upper-cased token
becomes `preCommand`.  In every replying case the session is unchanged. -/
theorem receiveLine_check_order (srv : Server) (sess : SessState) (line : GoStr)
    (hftls : srv.opts.forceTLS = false) :
    (mapGet (srv.opts.commands.getD []) (goToUpper (parseLine line).1) = none →
        receiveLine srv sess line
          = (LineResult.replied 500 "Command not found".toList, sess)) ∧
      (∀ c, mapGet (srv.opts.commands.getD []) (goToUpper (parseLine line).1) = some c →
        (c.requireParam = true ∧ (parseLine line).2 = [] →
            receiveLine srv sess line
              = (LineResult.replied 553 "action aborted, required param missing".toList,
                  sess)) ∧
          (¬(c.requireParam = true ∧ (parseLine line).2 = []) →
            c.requireAuth = true ∧ sess.user = [] →
              receiveLine srv sess line
                = (LineResult.replied 530 "not logged in".toList, sess)) ∧
          (¬(c.requireParam = true ∧ (parseLine line).2 = []) →
            ¬(c.requireAuth = true ∧ sess.user = []) →
              receiveLine srv sess line
                = (LineResult.executed (goToUpper (parseLine line).1) (parseLine line).2,
                    { sess with preCommand := goToUpper (parseLine line).1 }))) := by
  constructor
  · intro h
    simp only [receiveLine, h]
  · intro c hc
    refine ⟨?_, ?_, ?_⟩
    · intro hp
      simp only [receiveLine, hc, if_pos hp]
    · intro hp hauth
      simp only [receiveLine, hc, if_neg hp, hftls]
      rw [if_neg (by simp), if_pos hauth]
    · intro hp hauth
      simp only [receiveLine, hc, if_neg hp, hftls]
      rw [if_neg (by simp), if_neg hauth]

theorem receiveLine_check_order_witness :
    plainServer.opts.forceTLS = false ∧
      ((mapGet (plainServer.opts.commands.getD [])
            (goToUpper (parseLine "NOOP\r\n".toList).1) = none →
          receiveLine plainServer (newSession 0) "NOOP\r\n".toList
            = (LineResult.replied 500 "Command not found".toList, newSession 0)) ∧
        (∀ c, mapGet (plainServer.opts.commands.getD [])
            (goToUpper (parseLine "NOOP\r\n".toList).1) = some c →
          (c.requireParam = true ∧ (parseLine "NOOP\r\n".toList).2 = [] →
              receiveLine plainServer (newSession 0) "NOOP\r\n".toList
                = (LineResult.replied 553
                    "action aborted, required param missing".toList, newSession 0)) ∧
            (¬(c.requireParam = true ∧ (parseLine "NOOP\r\n".toList).2 = []) →
              c.requireAuth = true ∧ (newSession 0).user = [] →
                receiveLine plainServer (newSession 0) "NOOP\r\n".toList
                  = (LineResult.replied 530 "not logged in".toList, newSession 0)) ∧
            (¬(c.requireParam = true ∧ (parseLine "NOOP\r\n".toList).2 = []) →
              ¬(c.requireAuth = true ∧ (newSession 0).user = []) →
                receiveLine plainServer (newSession 0) "NOOP\r\n".toList
                  = (LineResult.executed (goToUpper (parseLine "NOOP\r\n".toList).1)
                        (parseLine "NOOP\r\n".toList).2,
                      { newSession 0 with
                          preCommand := goToUpper (parseLine "NOOP\r\n".toList).1 })))) :=
  ⟨rfl, receiveLine_check_order plainServer (newSession 0) "NOOP\r\n".toList rfl⟩

/-! ## Theorems: C7 -/

/-- C7 counterexample: the FEAT reply of a freshly constructed server
(empty extension registry, no TLS) is
`"211-Extensions supported:\n UTF8\n\r\n211 END\r\n"` — its interior
lines are separated by bare `"\n"`, not `"\r\n"`, so not every line of
the multi-line reply ends in `"\r\n"` as the claim states. -/
theorem featReply_bare_lf_counterexample :
    (newServer plainOptions).map (fun srv => writeMessageMultilineLine 211 srv.feats)
        = Except.ok "211-Extensions supported:\n UTF8\n\r\n211 END\r\n".toList ∧
      allLinesCRLF "211-Extensions supported:\n UTF8\n\r\n211 END\r\n".toList
        = false :=
  ⟨rfl, rfl⟩

theorem digitChar_ne_cr_lf (k : Nat) (hk : k < 10) :
    Char.ofNat (48 + k) ≠ '\r' ∧ Char.ofNat (48 + k) ≠ '\n' := by
  interval_cases k <;> exact ⟨by decide, by decide⟩

theorem goItoaAux_no_cr_lf (fuel : Nat) :
    ∀ n, ∀ c ∈ goItoaAux fuel n, c ≠ '\r' ∧ c ≠ '\n' := by
  induction fuel with
  | zero => intro n c hc; simp [goItoaAux] at hc
  | succ fuel ih =>
    intro n c hc
    rw [goItoaAux] at hc
    split at hc
    · next h =>
      simp only [List.mem_singleton] at hc
      exact hc ▸ digitChar_ne_cr_lf n h
    · next h =>
      rcases List.mem_append.mp hc with h1 | h2
      · exact ih _ c h1
      · simp only [List.mem_singleton] at h2
        exact h2 ▸ digitChar_ne_cr_lf (n % 10) (Nat.mod_lt _ (by omega))

theorem goItoa_no_cr_lf (n : Nat) : ∀ c ∈ goItoa n, c ≠ '\r' ∧ c ≠ '\n' :=
  goItoaAux_no_cr_lf (n + 1) n

theorem countCRLF_cons_no_cr (c : Char) (t : GoStr) (hc : c ≠ '\r') :
    countCRLF (c :: t) = countCRLF t := by
  cases t with
  | nil => rfl
  | cons d rest => simp [countCRLF, hc]

theorem countCRLF_append_no_cr (l t : GoStr) (h : '\r' ∉ l) :
    countCRLF (l ++ t) = countCRLF t := by
  induction l with
  | nil => rfl
  | cons c rest ih =>
    have hc : c ≠ '\r' := fun e => h (e ▸ List.mem_cons_self c rest)
    have hr : '\r' ∉ rest := fun m => h (List.mem_cons_of_mem c m)
    rw [List.cons_append, countCRLF_cons_no_cr c _ hc, ih hr]

theorem countCRLF_crlf_cons (t : GoStr) :
    countCRLF ('\r' :: '\n' :: t) = countCRLF t + 1 := by
  simp [countCRLF]

/-- C7 amended: a single-line reply over a CR-free message contains
exactly one `"\r\n"`, as its terminator; the multi-line reply contains
exactly two — one before `"<code> END"` and the final terminator — and
ends with `"<code> END\r\n"`.  The interior line breaks of the FEAT text
stay bare `"\n"` (see the counterexample). -/
theorem writeMessage_crlf_amended (code code2 : Nat) (m m2 : GoStr)
    (hm : '\r' ∉ m) (hm2 : '\r' ∉ m2) :
    countCRLF (writeMessageLine code m) = 1 ∧
      "\r\n".toList <:+ writeMessageLine code m ∧
      countCRLF (writeMessageMultilineLine code2 m2) = 2 ∧
      (goItoa code2 ++ " END\r\n".toList) <:+ writeMessageMultilineLine code2 m2 := by
  have hcode : '\r' ∉ goItoa code := fun hmem =>
    (goItoa_no_cr_lf code '\r' hmem).1 rfl
  have hcode2 : '\r' ∉ goItoa code2 := fun hmem =>
    (goItoa_no_cr_lf code2 '\r' hmem).1 rfl
  have hm' : '\r' ∉ (' ' :: m : GoStr) := by
    intro hmem
    rcases List.mem_cons.mp hmem with h | h
    · exact absurd h.symm (by decide)
    · exact hm h
  have hm2' : '\r' ∉ ('-' :: m2 : GoStr) := by
    intro hmem
    rcases List.mem_cons.mp hmem with h | h
    · exact absurd h.symm (by decide)
    · exact hm2 h
  refine ⟨?_, ?_, ?_, ?_⟩
  · show countCRLF (goItoa code ++ ' ' :: m ++ "\r\n".toList) = 1
    rw [List.append_assoc, countCRLF_append_no_cr _ _ hcode,
      countCRLF_append_no_cr _ _ hm']
    decide
  · exact ⟨goItoa code ++ ' ' :: m, by simp [writeMessageLine]⟩
  · show countCRLF (goItoa code2 ++ '-' :: m2 ++ "\r\n".toList
        ++ goItoa code2 ++ " END\r\n".toList) = 2
    have hsplit : goItoa code2 ++ '-' :: m2 ++ "\r\n".toList
        ++ goItoa code2 ++ " END\r\n".toList
        = goItoa code2 ++ (('-' :: m2)
            ++ ('\r' :: '\n' :: (goItoa code2 ++ " END\r\n".toList))) := by
      simp
    rw [hsplit, countCRLF_append_no_cr _ _ hcode2,
      countCRLF_append_no_cr _ _ hm2', countCRLF_crlf_cons,
      countCRLF_append_no_cr _ _ hcode2]
    decide
  · exact ⟨goItoa code2 ++ '-' :: m2 ++ ['\r', '\n'],
      by simp [writeMessageMultilineLine]⟩

theorem writeMessage_crlf_amended_witness :
    ('\r' ∉ ("Closing data connection, sent 2 bytes".toList : GoStr)) ∧
      ('\r' ∉ ("Extensions supported:\n UTF8\n".toList : GoStr)) ∧
      (countCRLF (writeMessageLine 226 "Closing data connection, sent 2 bytes".toList) = 1 ∧
        "\r\n".toList <:+ writeMessageLine 226 "Closing data connection, sent 2 bytes".toList ∧
        countCRLF (writeMessageMultilineLine 211 "Extensions supported:\n UTF8\n".toList) = 2 ∧
        (goItoa 211 ++ " END\r\n".toList) <:+
          writeMessageMultilineLine 211 "Extensions supported:\n UTF8\n".toList) :=
  ⟨by decide, by decide,
    writeMessage_crlf_amended 226 211 "Closing data connection, sent 2 bytes".toList
      "Extensions supported:\n UTF8\n".toList (by decide) (by decide)⟩

/-! ## Theorems: C3 -/

theorem btkLoop_stop (buf : GoStr) (dotdot w : Nat)
    (h : ¬(dotdot < w ∧ buf.getD w ' ' ≠ '/')) : btkLoop buf dotdot w = w := by
  rw [btkLoop, dif_neg h]

theorem btkLoop_rundown (k : Nat) :
    ∀ (buf : GoStr) (dotdot : Nat),
      (∀ j, dotdot < j → j ≤ dotdot + k → buf.getD j ' ' ≠ '/') →
      btkLoop buf dotdot (dotdot + k) = dotdot := by
  induction k with
  | zero =>
    intro buf dotdot _
    exact btkLoop_stop buf dotdot dotdot (by omega)
  | succ k ih =>
    intro buf dotdot h
    have hcond : dotdot < dotdot + (k + 1) ∧
        buf.getD (dotdot + (k + 1)) ' ' ≠ '/' :=
      ⟨by omega, h _ (by omega) (by omega)⟩
    rw [btkLoop, dif_pos hcond]
    have harg : dotdot + (k + 1) - 1 = dotdot + k := by omega
    rw [harg]
    exact ih buf dotdot (fun j h1 h2 => h j h1 (by omega))

theorem btkLoop_stop_at_slash (k : Nat) :
    ∀ (buf : GoStr) (dotdot base : Nat), dotdot < base →
      buf.getD base ' ' = '/' →
      (∀ j, base < j → j ≤ base + k → buf.getD j ' ' ≠ '/') →
      btkLoop buf dotdot (base + k) = base := by
  induction k with
  | zero =>
    intro buf dotdot base _ hsl _
    exact btkLoop_stop buf dotdot base (fun hc => hc.2 hsl)
  | succ k ih =>
    intro buf dotdot base hlt hsl h
    have hcond : dotdot < base + (k + 1) ∧
        buf.getD (base + (k + 1)) ' ' ≠ '/' :=
      ⟨by omega, h _ (by omega) (by omega)⟩
    rw [btkLoop, dif_pos hcond]
    have harg : base + (k + 1) - 1 = base + k := by omega
    rw [harg]
    exact ih buf dotdot base hlt hsl (fun j h1 h2 => h j h1 (by omega))

theorem joinSegs_cons₂ (s r : GoStr) (t : List GoStr) :
    joinSegs (s :: r :: t) = s ++ '/' :: joinSegs (r :: t) := rfl

theorem joinSegs_ne_nil (segs : List GoStr) (h0 : segs ≠ [])
    (h1 : ∀ s ∈ segs, s ≠ []) : joinSegs segs ≠ [] := by
  match segs with
  | [] => exact absurd rfl h0
  | [s] => exact h1 s (List.mem_singleton.mpr rfl)
  | s :: r :: t =>
    rw [joinSegs_cons₂]
    intro hc
    rcases List.append_eq_nil.mp hc with ⟨hs, _⟩
    exact h1 s (by simp) hs

theorem joinSegs_concat (init : List GoStr) (last : GoStr) (h : init ≠ []) :
    joinSegs (init ++ [last]) = joinSegs init ++ '/' :: last := by
  induction init with
  | nil => exact absurd rfl h
  | cons i0 it ih =>
    cases it with
    | nil => rfl
    | cons r t =>
      have e1 : joinSegs (i0 :: ((r :: t) ++ [last]))
          = i0 ++ '/' :: joinSegs ((r :: t) ++ [last]) :=
        joinSegs_cons₂ i0 r (t ++ [last])
      show joinSegs (i0 :: ((r :: t) ++ [last]))
          = joinSegs (i0 :: r :: t) ++ '/' :: last
      rw [e1, ih (by simp), joinSegs_cons₂ i0 r t]
      simp

theorem backtrack_proper (init : List GoStr) (last : GoStr)
    (hg : GoodSegs (init ++ [last])) :
    backtrack ('/' :: joinSegs (init ++ [last])) 1 = '/' :: joinSegs init := by
  have hlast := hg last (by simp)
  obtain ⟨hlne, hlsl, -, -⟩ := hlast
  have hlpos : 0 < last.length := List.length_pos.mpr hlne
  have hlastD : ∀ (j : Nat), j < last.length → last.getD j ' ' ≠ '/' := by
    intro j hj
    rw [List.getD_eq_getElem last ' ' hj]
    exact fun he => hlsl (he ▸ List.getElem_mem hj)
  cases init with
  | nil =>
    simp only [List.nil_append]
    show backtrack ('/' :: last) 1 = '/' :: joinSegs []
    have hlen : ('/' :: last).length - 1 = 1 + (last.length - 1) := by
      simp [List.length_cons]; omega
    rw [backtrack, hlen, btkLoop_rundown (last.length - 1)]
    · simp [List.take_cons, joinSegs]
    · intro j h1 h2
      obtain ⟨j', rfl⟩ : ∃ j', j = j' + 1 := ⟨j - 1, by omega⟩
      rw [List.getD_cons_succ]
      exact hlastD j' (by omega)
  | cons i0 it =>
    have hinit : (i0 :: it : List GoStr) ≠ [] := by simp
    have hjne : joinSegs (i0 :: it) ≠ [] :=
      joinSegs_ne_nil _ hinit (fun s hs => (hg s (List.mem_append_left _ hs)).1)
    have hjpos : 0 < (joinSegs (i0 :: it)).length := List.length_pos.mpr hjne
    rw [joinSegs_concat _ _ hinit]
    have hout : ('/' :: (joinSegs (i0 :: it) ++ '/' :: last) : GoStr)
        = ('/' :: joinSegs (i0 :: it)) ++ '/' :: last := by simp
    rw [hout, backtrack]
    set a : GoStr := '/' :: joinSegs (i0 :: it) with ha
    have hL : a.length = 1 + (joinSegs (i0 :: it)).length := by
      simp [ha]
      omega
    have hlen : (a ++ '/' :: last).length - 1 = a.length + last.length := by
      simp [List.length_append, List.length_cons]
    rw [hlen, btkLoop_stop_at_slash last.length _ _ _ (by omega)
      (by rw [List.getD_append_right a _ ' ' a.length le_rfl]; simp)
      (by
        intro j h1 h2
        rw [List.getD_append_right a _ ' ' j (by omega)]
        obtain ⟨j', hj'⟩ : ∃ j', j - a.length = j' + 1 := ⟨j - a.length - 1, by omega⟩
        rw [hj', List.getD_cons_succ]
        exact hlastD j' (by omega))]
    exact List.take_left a _

theorem goodSegs_nil : GoodSegs [] := fun s hs => absurd hs (List.not_mem_nil s)

theorem goodSegs_of_concat (init : List GoStr) (last : GoStr)
    (hg : GoodSegs (init ++ [last])) : GoodSegs init :=
  fun s hs => hg s (List.mem_append_left _ hs)

theorem goodSegs_concat (segs : List GoStr) (seg : GoStr) (hg : GoodSegs segs)
    (h1 : seg ≠ []) (h2 : '/' ∉ seg) (h3 : seg ≠ ['.']) (h4 : seg ≠ ['.', '.']) :
    GoodSegs (segs ++ [seg]) := by
  intro s hs
  rcases List.mem_append.mp hs with h | h
  · exact hg s h
  · rw [List.mem_singleton.mp h]
    exact ⟨h1, h2, h3, h4⟩

theorem takeWhile_nil_head (l : GoStr)
    (hl : l.takeWhile (fun x => x ≠ '/') = []) : l = [] ∨ l.headD ' ' = '/' := by
  cases l with
  | nil => exact Or.inl rfl
  | cons a t =>
    rw [List.takeWhile_cons] at hl
    by_cases ha : a = '/'
    · exact Or.inr (by simp [ha])
    · simp [ha] at hl

/-- In the default branch of `cleanLoop` the copied segment is non-empty,
slash-free, and neither `"."` nor `".."` (those would have been caught by
the earlier cases). -/
theorem defaultSeg_props (c : Char) (rest : GoStr)
    (h1 : ¬ c = '/')
    (h2 : ¬(c = '.' ∧ (rest = [] ∨ rest.headD ' ' = '/')))
    (h3 : ¬(c = '.' ∧ rest.headD ' ' = '.' ∧
        (rest.tail = [] ∨ rest.tail.headD ' ' = '/'))) :
    (c :: rest).takeWhile (fun x => x ≠ '/') ≠ [] ∧
      '/' ∉ (c :: rest).takeWhile (fun x => x ≠ '/') ∧
      (c :: rest).takeWhile (fun x => x ≠ '/') ≠ ['.'] ∧
      (c :: rest).takeWhile (fun x => x ≠ '/') ≠ ['.', '.'] := by
  have hcons : (c :: rest).takeWhile (fun x => x ≠ '/')
      = c :: rest.takeWhile (fun x => x ≠ '/') := by
    rw [List.takeWhile_cons]
    simp [h1]
  refine ⟨?_, ?_, ?_, ?_⟩
  · rw [hcons]; simp
  · intro hm
    have := List.mem_takeWhile_imp hm
    simp at this
  · intro he
    rw [hcons] at he
    injection he with hc htw
    exact h2 ⟨hc, takeWhile_nil_head rest htw⟩
  · intro he
    rw [hcons] at he
    injection he with hc htw
    cases rest with
    | nil => simp at htw
    | cons r rt =>
      rw [List.takeWhile_cons] at htw
      by_cases hr : r = '/'
      · simp [hr] at htw
      · rw [if_pos (by simp [hr])] at htw
        injection htw with hr' htw'
        refine h3 ⟨hc, by simp [hr'], ?_⟩
        simpa using takeWhile_nil_head rt htw'

/-- The invariant of `cleanLoop` on rooted input: started on a buffer of
the form `'/'` followed by well-formed slash-separated segments (with the
`dotdot` barrier at 1), it ends on a buffer of the same form. -/
theorem cleanLoop_proper (n : Nat) :
    ∀ (path : GoStr), path.length ≤ n →
      ∀ segs : List GoStr, GoodSegs segs →
      ∃ segs', GoodSegs segs' ∧
        cleanLoop path true ('/' :: joinSegs segs) 1 = '/' :: joinSegs segs' := by
  induction n with
  | zero =>
    intro path hlen segs hg
    have hp : path = [] := List.eq_nil_of_length_eq_zero (Nat.le_zero.mp hlen)
    subst hp
    exact ⟨segs, hg, by rw [cleanLoop]⟩
  | succ n ih =>
    intro path hlen segs hg
    cases path with
    | nil => exact ⟨segs, hg, by rw [cleanLoop]⟩
    | cons c rest =>
      have hrest : rest.length ≤ n := by
        simp only [List.length_cons] at hlen; omega
      have htail : rest.tail.length ≤ n := by
        have := rest.length_tail; omega
      by_cases h1 : c = '/'
      · obtain ⟨segs', hg', heq⟩ := ih rest hrest segs hg
        exact ⟨segs', hg', by rw [cleanLoop, if_pos h1]; exact heq⟩
      · by_cases h2 : c = '.' ∧ (rest = [] ∨ rest.headD ' ' = '/')
        · obtain ⟨segs', hg', heq⟩ := ih rest hrest segs hg
          exact ⟨segs', hg', by rw [cleanLoop, if_neg h1, if_pos h2]; exact heq⟩
        · by_cases h3 : c = '.' ∧ rest.headD ' ' = '.' ∧
              (rest.tail = [] ∨ rest.tail.headD ' ' = '/')
          · -- the ".." case
            rcases segs.eq_nil_or_concat' with hsegs | ⟨init, lastSeg, rfl⟩
            · subst hsegs
              obtain ⟨segs', hg', heq⟩ := ih rest.tail htail [] goodSegs_nil
              refine ⟨segs', hg', ?_⟩
              rw [cleanLoop, if_neg h1, if_neg h2, if_pos h3,
                if_neg (by simp [joinSegs]), if_neg (by simp)]
              exact heq
            · have hlen2 : ('/' :: joinSegs (init ++ [lastSeg])).length > 1 := by
                have hne : joinSegs (init ++ [lastSeg]) ≠ [] :=
                  joinSegs_ne_nil _ (by simp) (fun s hs => (hg s hs).1)
                have := List.length_pos.mpr hne
                simp only [List.length_cons]
                omega
              obtain ⟨segs', hg', heq⟩ :=
                ih rest.tail htail init (goodSegs_of_concat init lastSeg hg)
              refine ⟨segs', hg', ?_⟩
              rw [cleanLoop, if_neg h1, if_neg h2, if_pos h3, if_pos hlen2,
                backtrack_proper init lastSeg hg]
              exact heq
          · -- the default (copy a segment) case
            obtain ⟨hsne, hssl, hsd1, hsd2⟩ := defaultSeg_props c rest h1 h2 h3
            have hrest2 : (rest.dropWhile (fun x => x ≠ '/')).length ≤ n :=
              le_trans ((List.dropWhile_sublist (l := rest) _).length_le) hrest
            rcases eq_or_ne segs [] with hs0 | hs0
            · subst hs0
              obtain ⟨segs', hg', heq⟩ := ih _ hrest2
                [(c :: rest).takeWhile (fun x => x ≠ '/')]
                (goodSegs_concat [] _ goodSegs_nil hsne hssl hsd1 hsd2)
              refine ⟨segs', hg', ?_⟩
              rw [cleanLoop, if_neg h1, if_neg h2, if_neg h3,
                if_neg (by simp [joinSegs])]
              have hform : ('/' :: joinSegs ([] : List GoStr))
                    ++ (c :: rest).takeWhile (fun x => x ≠ '/')
                  = '/' :: joinSegs [(c :: rest).takeWhile (fun x => x ≠ '/')] := by
                simp [joinSegs]
              rw [hform]
              exact heq
            · have hjne : joinSegs segs ≠ [] :=
                joinSegs_ne_nil _ hs0 (fun s hs => (hg s hs).1)
              have hcond : (true = true ∧ ('/' :: joinSegs segs).length ≠ 1) ∨
                  (true = false ∧ ('/' :: joinSegs segs).length ≠ 0) := by
                left
                refine ⟨rfl, ?_⟩
                have := List.length_pos.mpr hjne
                simp only [List.length_cons]
                omega
              obtain ⟨segs', hg', heq⟩ := ih _ hrest2
                (segs ++ [(c :: rest).takeWhile (fun x => x ≠ '/')])
                (goodSegs_concat segs _ hg hsne hssl hsd1 hsd2)
              refine ⟨segs', hg', ?_⟩
              rw [cleanLoop, if_neg h1, if_neg h2, if_neg h3, if_pos hcond]
              have hform : ('/' :: joinSegs segs) ++ ['/']
                    ++ (c :: rest).takeWhile (fun x => x ≠ '/')
                  = '/' :: joinSegs (segs
                      ++ [(c :: rest).takeWhile (fun x => x ≠ '/')]) := by
                rw [joinSegs_concat _ _ hs0]
                simp
              rw [hform]
              exact heq

theorem goClean_rooted (path : GoStr) (hne : path ≠ [])
    (hhead : path.headD ' ' = '/') :
    ∃ segs, GoodSegs segs ∧ goFilepathClean path = '/' :: joinSegs segs := by
  obtain ⟨segs, hg, heq⟩ := cleanLoop_proper path.length path le_rfl [] goodSegs_nil
  have heq' : cleanLoop path true ['/'] 1 = '/' :: joinSegs segs := by
    rw [show (['/'] : GoStr) = '/' :: joinSegs [] from rfl]
    exact heq
  refine ⟨segs, hg, ?_⟩
  simp only [goFilepathClean, if_neg hne, hhead, beq_self_eq_true, if_true]
  rw [heq']
  simp

theorem replaceAll_nil (pat rep : GoStr) (_hp : pat ≠ []) :
    replaceAll [] pat rep = [] := by
  have h : ¬(pat ≠ [] ∧ pat.isPrefixOf ([] : GoStr)) := by
    rintro ⟨hne, hpre⟩
    have hle := (List.isPrefixOf_iff_prefix.mp hpre).length_le
    simp only [List.length_nil, Nat.le_zero] at hle
    exact hne (List.eq_nil_of_length_eq_zero hle)
  rw [replaceAll, dif_neg h]

theorem replaceAll_cons_no_match (c : Char) (rest pat rep : GoStr)
    (h : ¬(pat ≠ [] ∧ pat.isPrefixOf (c :: rest))) :
    replaceAll (c :: rest) pat rep = c :: replaceAll rest pat rep := by
  rw [replaceAll, dif_neg h]

theorem ss_no_match_ne (c : Char) (rest : GoStr) (hc : c ≠ '/') :
    ¬(("//".toList : GoStr) ≠ [] ∧ ("//".toList : GoStr).isPrefixOf (c :: rest)) := by
  rintro ⟨-, hpre⟩
  obtain ⟨t, ht⟩ := List.isPrefixOf_iff_prefix.mp hpre
  rw [show (("//".toList : GoStr) ++ t) = '/' :: '/' :: t from rfl] at ht
  injection ht with hh _
  exact hc hh.symm

theorem ss_no_match_single (l : GoStr) (hl : l = [] ∨ l.headD ' ' ≠ '/') :
    ¬(("//".toList : GoStr) ≠ [] ∧ ("//".toList : GoStr).isPrefixOf ('/' :: l)) := by
  rintro ⟨-, hpre⟩
  obtain ⟨t, ht⟩ := List.isPrefixOf_iff_prefix.mp hpre
  rw [show (("//".toList : GoStr) ++ t) = '/' :: '/' :: t from rfl] at ht
  injection ht with _ htl
  rcases hl with rfl | hhd
  · exact absurd htl.symm (by simp)
  · rw [← htl] at hhd
    simp at hhd

theorem replaceAll_ss_seg (s : GoStr) (t : GoStr) (h : ∀ c ∈ s, c ≠ '/') :
    replaceAll (s ++ t) "//".toList "/".toList
      = s ++ replaceAll t "//".toList "/".toList := by
  induction s with
  | nil => simp
  | cons c s' ih =>
    have hc : c ≠ '/' := h c (by simp)
    have h' : ∀ x ∈ s', x ≠ '/' := fun x hx => h x (by simp [hx])
    rw [List.cons_append,
      replaceAll_cons_no_match c _ _ _ (ss_no_match_ne c _ hc), ih h',
      List.cons_append]

theorem replaceAll_ss_slash_cons (l : GoStr) (hl : l = [] ∨ l.headD ' ' ≠ '/') :
    replaceAll ('/' :: l) "//".toList "/".toList
      = '/' :: replaceAll l "//".toList "/".toList :=
  replaceAll_cons_no_match '/' l _ _ (ss_no_match_single l hl)

theorem replaceAll_ss_proper (segs : List GoStr) (hg : GoodSegs segs) :
    replaceAll ('/' :: joinSegs segs) "//".toList "/".toList
      = '/' :: joinSegs segs := by
  induction segs with
  | nil =>
    rw [show ('/' :: joinSegs [] : GoStr) = '/' :: [] from rfl,
      replaceAll_ss_slash_cons [] (Or.inl rfl), replaceAll_nil _ _ (by decide)]
  | cons s rest ih =>
    obtain ⟨hsne, hssl, -, -⟩ := hg s (by simp)
    obtain ⟨s0, st, rfl⟩ : ∃ s0 st, s = s0 :: st := by
      cases s with
      | nil => exact absurd rfl hsne
      | cons s0 st => exact ⟨s0, st, rfl⟩
    have hs0 : s0 ≠ '/' := by
      intro he
      exact hssl (by rw [he]; exact List.mem_cons_self _ _)
    cases rest with
    | nil =>
      rw [show joinSegs [s0 :: st] = s0 :: st from rfl,
        replaceAll_ss_slash_cons _ (Or.inr (by simpa using Ne.symm (Ne.symm hs0)))]
      have hseg := replaceAll_ss_seg (s0 :: st) []
        (fun c hc he => hssl (he ▸ hc))
      rw [List.append_nil] at hseg
      rw [hseg, replaceAll_nil _ _ (by decide), List.append_nil]
    | cons r rt =>
      rw [joinSegs_cons₂]
      have hhd : (((s0 :: st) ++ '/' :: joinSegs (r :: rt)) : GoStr).headD ' ' ≠ '/' := by
        simpa using hs0
      rw [show ('/' :: ((s0 :: st) ++ '/' :: joinSegs (r :: rt)) : GoStr)
          = '/' :: ((s0 :: st) ++ '/' :: joinSegs (r :: rt)) from rfl,
        replaceAll_ss_slash_cons _ (Or.inr hhd),
        replaceAll_ss_seg (s0 :: st) _ (fun c hc he => hssl (he ▸ hc)),
        ih (fun x hx => hg x (by simp [hx]))]

theorem replaceAll_slash_id (l : GoStr) :
    replaceAll l "/".toList "/".toList = l := by
  induction l with
  | nil => exact replaceAll_nil _ _ (by decide)
  | cons c rest ih =>
    by_cases hc : c = '/'
    · subst hc
      have hpre : ("/".toList : GoStr) ≠ [] ∧
          ("/".toList : GoStr).isPrefixOf ('/' :: rest) :=
        ⟨by decide, List.isPrefixOf_iff_prefix.mpr ⟨rest, rfl⟩⟩
      rw [replaceAll, dif_pos hpre]
      have hdrop : (('/' :: rest).drop ("/".toList : GoStr).length) = rest := rfl
      rw [hdrop, ih]
      rfl
    · have hn : ¬(("/".toList : GoStr) ≠ [] ∧
          ("/".toList : GoStr).isPrefixOf (c :: rest)) := by
        rintro ⟨-, hpre⟩
        obtain ⟨t, ht⟩ := List.isPrefixOf_iff_prefix.mp hpre
        rw [show (("/".toList : GoStr) ++ t) = '/' :: t from rfl] at ht
        injection ht with hh _
        exact hc hh.symm
      rw [replaceAll_cons_no_match c rest _ _ hn, ih]

/-- The two `strings.Replace` calls after `filepath.Clean` leave a cleaned
rooted path unchanged: it contains no `"//"` and replacing `"/"` by `"/"`
is the identity. -/
theorem postClean (segs : List GoStr) (hg : GoodSegs segs) :
    replaceAll (replaceAll ('/' :: joinSegs segs) "//".toList "/".toList)
        "/".toList "/".toList = '/' :: joinSegs segs := by
  rw [replaceAll_ss_proper segs hg, replaceAll_slash_id]

theorem joinSegs_intercalate (segs : List GoStr) (h : segs ≠ []) :
    List.intercalate ['/'] segs = joinSegs segs := by
  induction segs with
  | nil => exact absurd rfl h
  | cons s rest ih =>
    cases rest with
    | nil => simp [List.intercalate, joinSegs]
    | cons r rt =>
      have hstep : List.intercalate ['/'] (s :: r :: rt)
          = s ++ '/' :: List.intercalate ['/'] (r :: rt) := by
        simp [List.intercalate, List.intersperse_cons_cons]
      rw [hstep, ih (by simp), joinSegs_cons₂]

theorem splitOn_cleaned (segs : List GoStr) (hg : GoodSegs segs) :
    noDotSegs ('/' :: joinSegs segs) := by
  cases segs with
  | nil =>
    intro s hs
    rw [show ('/' :: joinSegs ([] : List GoStr) : GoStr) = ['/'] from rfl] at hs
    rw [show ((['/'] : GoStr).splitOn '/') = [[], []] from by decide] at hs
    rcases List.mem_cons.mp hs with rfl | hs
    · exact ⟨by simp, by simp⟩
    · rw [List.mem_singleton.mp hs]
      exact ⟨by simp, by simp⟩
  | cons s0 rest =>
    have hx : ∀ l ∈ ([] :: s0 :: rest), '/' ∉ l := by
      intro l hl
      rcases List.mem_cons.mp hl with rfl | hl
      · simp
      · exact (hg l hl).2.1
    have h1 : List.intercalate ['/'] ([] :: s0 :: rest)
        = [] ++ '/' :: List.intercalate ['/'] (s0 :: rest) := by
      simp [List.intercalate, List.intersperse_cons_cons]
    have hform : ('/' :: joinSegs (s0 :: rest) : GoStr)
        = List.intercalate ['/'] ([] :: s0 :: rest) := by
      rw [h1, joinSegs_intercalate _ (by simp)]
      simp
    intro s hs
    rw [hform] at hs
    rw [List.splitOn_intercalate ([] :: s0 :: rest) '/' hx (by simp)] at hs
    rcases List.mem_cons.mp hs with rfl | hs
    · exact ⟨by simp, by simp⟩
    · exact ⟨(hg s hs).2.2.1, (hg s hs).2.2.2⟩

theorem buildPath_clean (curDir p : GoStr) (habs : curDir.headD ' ' = '/') :
    ∃ segs, GoodSegs segs ∧ buildPath curDir p = '/' :: joinSegs segs := by
  have hcne : curDir ≠ [] := by
    intro h
    rw [h] at habs
    simp at habs
  by_cases hA : p.length > 0 ∧ p.take 1 = "/".toList
  · have hpne : p ≠ [] := by
      intro h
      rw [h] at hA
      simp at hA
    have hphead : p.headD ' ' = '/' := by
      obtain ⟨p0, pt, rfl⟩ : ∃ p0 pt, p = p0 :: pt := by
        cases p with
        | nil => exact absurd rfl hpne
        | cons p0 pt => exact ⟨p0, pt, rfl⟩
      have h0 : p0 = '/' := by simpa using hA.2
      simp [h0]
    obtain ⟨segs, hg, heq⟩ := goClean_rooted p hpne hphead
    refine ⟨segs, hg, ?_⟩
    simp only [buildPath, if_pos hA]
    rw [heq, postClean segs hg]
  · by_cases hB : p.length > 0 ∧ p ≠ "-a".toList
    · have hcat : (curDir ++ "/".toList ++ p) ≠ [] := by simp
      have hcathead : (curDir ++ "/".toList ++ p).headD ' ' = '/' := by
        obtain ⟨c0, ct, rfl⟩ : ∃ c0 ct, curDir = c0 :: ct := by
          cases curDir with
          | nil => exact absurd rfl hcne
          | cons c0 ct => exact ⟨c0, ct, rfl⟩
        simpa using habs
      obtain ⟨segs, hg, heq⟩ := goClean_rooted _ hcat hcathead
      refine ⟨segs, hg, ?_⟩
      simp only [buildPath, if_neg hA, if_pos hB]
      rw [heq, postClean segs hg]
    · obtain ⟨segs, hg, heq⟩ := goClean_rooted curDir hcne habs
      refine ⟨segs, hg, ?_⟩
      simp only [buildPath, if_neg hA, if_neg hB]
      rw [heq, postClean segs hg]

theorem dotdotChain_succ (k : Nat) :
    dotdotChain (k + 1) = '/' :: '.' :: '.' :: dotdotChain k := by
  rw [dotdotChain, List.replicate_succ, List.flatten_cons]
  rfl

theorem dotdotChain_shape (k : Nat) :
    dotdotChain k = [] ∨ (dotdotChain k).headD ' ' = '/' := by
  cases k with
  | zero => exact Or.inl rfl
  | succ k => exact Or.inr (by rw [dotdotChain_succ]; rfl)

theorem cleanLoop_dotdotChain (k : Nat) :
    cleanLoop (dotdotChain k) true ['/'] 1 = ['/'] := by
  induction k with
  | zero => rw [show dotdotChain 0 = [] from rfl, cleanLoop]
  | succ k ih =>
    rw [dotdotChain_succ]
    rw [cleanLoop, if_pos rfl]
    have h2 : ¬(('.' : Char) = '.' ∧
        (('.' :: dotdotChain k : GoStr) = [] ∨
          ('.' :: dotdotChain k : GoStr).headD ' ' = '/')) := by
      simp
    have h3 : ('.' : Char) = '.' ∧
        ('.' :: dotdotChain k : GoStr).headD ' ' = '.' ∧
        (('.' :: dotdotChain k : GoStr).tail = [] ∨
          ('.' :: dotdotChain k : GoStr).tail.headD ' ' = '/') :=
      ⟨rfl, by simp, by simpa using dotdotChain_shape k⟩
    rw [cleanLoop, if_neg (by decide), if_neg h2, if_pos h3,
      if_neg (by simp), if_neg (by simp)]
    simpa using ih

theorem buildPath_dotdotChain (curDir : GoStr) (k : Nat) :
    buildPath curDir (dotdotChain (k + 1)) = ['/'] := by
  have hA : (dotdotChain (k + 1)).length > 0 ∧
      (dotdotChain (k + 1)).take 1 = "/".toList := by
    rw [dotdotChain_succ]
    exact ⟨by simp, rfl⟩
  have hne : dotdotChain (k + 1) ≠ [] := by
    rw [dotdotChain_succ]
    simp
  have hclean : goFilepathClean (dotdotChain (k + 1)) = ['/'] := by
    have hhead : (dotdotChain (k + 1)).headD ' ' = '/' := by
      rw [dotdotChain_succ]
      rfl
    simp only [goFilepathClean, if_neg hne, hhead, beq_self_eq_true, if_true]
    rw [cleanLoop_dotdotChain (k + 1)]
    simp
  simp only [buildPath, if_pos hA]
  rw [hclean, replaceAll_ss_slash_cons [] (Or.inl rfl),
    replaceAll_nil _ _ (by decide), replaceAll_slash_id]

/-- C3 confirmed: with `curDir` absolute and free of dot segments, every
`buildPath` result begins with `"/"` and, split on `'/'`, contains neither
`"."` nor `".."` as a segment; and any non-empty chain of `"/.."` inputs
normalizes to exactly `"/"` — the path cannot escape the root. -/
theorem buildPath_sandbox (curDir p : GoStr)
    (habs : curDir.headD ' ' = '/') (_hnd : noDotSegs curDir) :
    (buildPath curDir p).headD ' ' = '/' ∧
      noDotSegs (buildPath curDir p) ∧
      ∀ k : Nat, buildPath curDir (dotdotChain (k + 1)) = ['/'] := by
  obtain ⟨segs, hg, heq⟩ := buildPath_clean curDir p habs
  exact ⟨by rw [heq]; rfl,
    by rw [heq]; exact splitOn_cleaned segs hg,
    fun k => buildPath_dotdotChain curDir k⟩

theorem buildPath_sandbox_witness :
    (("/".toList : GoStr).headD ' ' = '/') ∧ noDotSegs "/".toList ∧
      ((buildPath "/".toList "../../etc/passwd".toList).headD ' ' = '/' ∧
        noDotSegs (buildPath "/".toList "../../etc/passwd".toList) ∧
        ∀ k : Nat, buildPath "/".toList (dotdotChain (k + 1)) = ['/']) :=
  ⟨by decide, by decide,
    buildPath_sandbox "/".toList "../../etc/passwd".toList (by decide) (by decide)⟩
